import Mathlib

/-!
Verification of the bit-level I/O stack of lsd2dsl.

The repository declares the stream hierarchy in src/dictlsd/BitStream.h
(IRandomAccessStream, BitStreamAdapter, XoringStreamAdapter, InMemoryStream)
and implements a file-backed byte source, FileStream, in
src/qtgui/MainWindow.cpp.  Bytes are modelled as natural numbers (values of
C++ unsigned char), buffers as lists of bytes, and every stateful operation
as a pure function from the stream state to a result paired with the updated
state.
-/

namespace dictlsd

/-- `InMemoryStream` of BitStream.h: a fixed byte buffer with a current
byte position (`_buf`/`_size` become `buf`, `_pos` becomes `pos`). -/
structure InMemoryStream where
  buf : List Nat
  pos : Nat
  deriving DecidableEq, Repr

/-- The `InMemoryStream(buf, size)` constructor: position starts at 0. -/
def InMemoryStream.fromBuf (buf : List Nat) : InMemoryStream :=
  ⟨buf, 0⟩

/-- Modelled from the spec: the body of `InMemoryStream::readSome` is in
BitStream.cpp, which is not among the sources.  Spec 4.2: computes
`bytes_read = min(count, length - position)`, copies that many bytes,
advances the position; a position beyond the buffer yields zero bytes.
The copied bytes are returned explicitly (their number is the spec's
`bytes_read`). -/
def InMemoryStream.readSome (s : InMemoryStream) (count : Nat) :
    List Nat × InMemoryStream :=
  let n := min count (s.buf.length - s.pos)
  ((s.buf.drop s.pos).take n, ⟨s.buf, s.pos + n⟩)

/-- Modelled from the spec: body of `InMemoryStream::seek` is in
BitStream.cpp.  Spec 4.2: sets the position to the given value, even beyond
the buffer length. -/
def InMemoryStream.seek (s : InMemoryStream) (p : Nat) : InMemoryStream :=
  ⟨s.buf, p⟩

/-- Modelled from the spec: body of `InMemoryStream::tell` is in
BitStream.cpp.  Spec 4.2: returns the stored position. -/
def InMemoryStream.tell (s : InMemoryStream) : Nat :=
  s.pos

/-- `BitStreamAdapter` of BitStream.h: wraps a byte source (`_ras`) and
keeps an absolute bit position (`_bitPos`).  The wrapped source is the
in-memory one; the claims quantify over its buffer. -/
structure BitStreamAdapter where
  ras : InMemoryStream
  bitPos : Nat
  deriving DecidableEq, Repr

/-- The `BitStreamAdapter(ras)` constructor: bit position starts at 0. -/
def BitStreamAdapter.fromRas (ras : InMemoryStream) : BitStreamAdapter :=
  ⟨ras, 0⟩

/-- Modelled from the spec: body of `BitStreamAdapter::readBit` is in
BitStream.cpp.  Spec 4.3: converts the bit position to a byte position
(`/8`) and a within-byte offset (`%8`), seeks and reads the containing byte
from the wrapped source, extracts the bit counting offset 0 as the most
significant bit, and advances the bit position by one. -/
def BitStreamAdapter.readBit (a : BitStreamAdapter) : Nat × BitStreamAdapter :=
  let bytePos := a.bitPos / 8
  let off := a.bitPos % 8
  let r := (a.ras.seek bytePos).readSome 1
  ((r.1.headD 0 >>> (7 - off)) &&& 1, ⟨r.2, a.bitPos + 1⟩)

/-- MSB-first field assembly shared by `BitStreamAdapter::read` and (via
virtual dispatch on `readBit`) by `XoringStreamAdapter`: iterate the given
bit reader `len` times building `value = (value << 1) | bit`. -/
def readMSB {σ : Type} (step : σ → Nat × σ) : Nat → Nat → σ → Nat × σ
  | 0, v, s => (v, s)
  | n + 1, v, s =>
    let r := step s
    readMSB step n ((v <<< 1) ||| r.1) r.2

/-- Modelled from the spec: body of `BitStreamAdapter::read` is in
BitStream.cpp.  Spec 4.3 and 7: for `len` in [1,32] it assembles `len` bits
MSB-first via `readBit`; a width outside [1,32] is a precondition violation
that fails fast, modelled as `none`. -/
def BitStreamAdapter.read (a : BitStreamAdapter) (len : Nat) :
    Option (Nat × BitStreamAdapter) :=
  if 1 ≤ len ∧ len ≤ 32 then some (readMSB BitStreamAdapter.readBit len 0 a)
  else none

/-- Modelled from the spec: body of `BitStreamAdapter::readSome` is in
BitStream.cpp.  Spec 4.3: delegates to the wrapped source's `readSome` at
the byte position implied by the current bit position, then advances the
bit position by `count * 8`. -/
def BitStreamAdapter.readSome (a : BitStreamAdapter) (count : Nat) :
    List Nat × BitStreamAdapter :=
  let r := (a.ras.seek (a.bitPos / 8)).readSome count
  (r.1, ⟨r.2, a.bitPos + count * 8⟩)

/-- Modelled from the spec: body of `BitStreamAdapter::seek` is in
BitStream.cpp.  Spec 4.3: sets the bit position to `byte_position * 8`. -/
def BitStreamAdapter.seek (a : BitStreamAdapter) (p : Nat) : BitStreamAdapter :=
  ⟨a.ras, p * 8⟩

/-- Modelled from the spec: body of `BitStreamAdapter::toNearestByte` is in
BitStream.cpp.  Spec 4.3: advances the bit position up to the next multiple
of 8, discarding any partial byte. -/
def BitStreamAdapter.toNearestByte (a : BitStreamAdapter) : BitStreamAdapter :=
  ⟨a.ras, (a.bitPos + 7) / 8 * 8⟩

/-- Modelled from the spec: body of `BitStreamAdapter::tell` is in
BitStream.cpp.  Spec 4.3: returns `bit_position / 8`, rounded down. -/
def BitStreamAdapter.tell (a : BitStreamAdapter) : Nat :=
  a.bitPos / 8

/-- The XOR loop of `XoringStreamAdapter::readSome` (spec 4.4): byte `i` of
a block starting at absolute byte position `p` is XORed with `key (p + i)`.
Spec 4.4 leaves the key-derivation formula open, requiring only that it is
a function of the absolute position; the development is parametric in
`key`. -/
def xorBytes (key : Nat → Nat) : Nat → List Nat → List Nat
  | _, [] => []
  | p, b :: bs => (b ^^^ key p) :: xorBytes key (p + 1) bs

/-- `XoringStreamAdapter` of BitStream.h.  Its `_key` member is a cache of
the position-determined key; spec 4.4 makes the decrypted byte at position
`P` depend on `P` alone, so the state is the inherited
`BitStreamAdapter` state and the cache does not appear. -/
structure XoringStreamAdapter where
  ras : InMemoryStream
  bitPos : Nat
  deriving DecidableEq, Repr

/-- The `XoringStreamAdapter(bstr)` constructor: bit position starts at 0. -/
def XoringStreamAdapter.fromRas (ras : InMemoryStream) : XoringStreamAdapter :=
  ⟨ras, 0⟩

/-- The inherited `BitStreamAdapter` sub-object of an `XoringStreamAdapter`. -/
def XoringStreamAdapter.toPlain (x : XoringStreamAdapter) : BitStreamAdapter :=
  ⟨x.ras, x.bitPos⟩

/-- Modelled from the spec: body of `XoringStreamAdapter::readSome` is in
BitStream.cpp.  Spec 4.4: reads `count` raw bytes via the underlying
mechanism, then XORs byte `i` with `key (start + i)`. -/
def XoringStreamAdapter.readSome (key : Nat → Nat) (x : XoringStreamAdapter)
    (count : Nat) : List Nat × XoringStreamAdapter :=
  let start := x.bitPos / 8
  let r := (x.ras.seek start).readSome count
  (xorBytes key start r.1, ⟨r.2, x.bitPos + count * 8⟩)

/-- Modelled from the spec: body of `XoringStreamAdapter::readBit` is in
BitStream.cpp.  Spec 4.4: obtains the raw bit exactly as the plain adapter
would, but XORs the freshly fetched byte with `key` of the current byte
position before bit extraction. -/
def XoringStreamAdapter.readBit (key : Nat → Nat) (x : XoringStreamAdapter) :
    Nat × XoringStreamAdapter :=
  let bytePos := x.bitPos / 8
  let off := x.bitPos % 8
  let r := (x.ras.seek bytePos).readSome 1
  (((r.1.headD 0 ^^^ key bytePos) >>> (7 - off)) &&& 1, ⟨r.2, x.bitPos + 1⟩)

/-- Modelled from the spec: body of `XoringStreamAdapter::seek` is in
BitStream.cpp.  Spec 4.4: sets the bit position as the plain adapter does
and resets any cached key state, so the next read re-derives the key from
the new absolute position (automatic here, the key being a function of the
position). -/
def XoringStreamAdapter.seek (x : XoringStreamAdapter) (p : Nat) :
    XoringStreamAdapter :=
  ⟨x.ras, p * 8⟩

/-- `read` is not overridden in BitStream.h: the inherited MSB-first
assembly runs with the overridden `readBit` (C++ virtual dispatch). -/
def XoringStreamAdapter.read (key : Nat → Nat) (x : XoringStreamAdapter)
    (len : Nat) : Option (Nat × XoringStreamAdapter) :=
  if 1 ≤ len ∧ len ≤ 32 then
    some (readMSB (XoringStreamAdapter.readBit key) len 0 x)
  else none

/-- `toNearestByte` is not overridden in BitStream.h: inherited unchanged. -/
def XoringStreamAdapter.toNearestByte (x : XoringStreamAdapter) :
    XoringStreamAdapter :=
  ⟨x.ras, (x.bitPos + 7) / 8 * 8⟩

/-- `tell` is not overridden in BitStream.h: inherited unchanged. -/
def XoringStreamAdapter.tell (x : XoringStreamAdapter) : Nat :=
  x.bitPos / 8

/-- `FileStream` of src/qtgui/MainWindow.cpp: a QFile with a read position,
modelled as the byte content of the opened file plus the position. -/
structure FileStream where
  data : List Nat
  pos : Nat
  deriving DecidableEq, Repr

/-- The `FileStream(path)` constructor (MainWindow.cpp lines 41-45): the
backing store a path resolves to is either openable, yielding its bytes, or
not (`none`); when `QFile::open` fails the constructor throws
`std::runtime_error("can't read file")` and no stream object is produced. -/
def FileStream.construct (backing : Option (List Nat)) :
    Except String FileStream :=
  match backing with
  | some d => Except.ok ⟨d, 0⟩
  | none => Except.error "can't read file"

/-- `FileStream::readSome` (MainWindow.cpp lines 46-48): calls
`QFile::read(dest, byteCount)` and discards its return value; the call
copies the bytes available before end of file (at most `count`) into the
front of `dest`, leaves the rest of `dest` unmodified, and returns
normally.  No byte count is reported to the caller. -/
def FileStream.readSome (fs : FileStream) (dest : List Nat) (count : Nat) :
    List Nat × FileStream :=
  let got := (fs.data.drop fs.pos).take (min count (fs.data.length - fs.pos))
  (got ++ dest.drop got.length, ⟨fs.data, fs.pos + got.length⟩)

/-- `FileStream::seek` (MainWindow.cpp lines 49-51): calls `QFile::seek`
and discards its success flag; the position is set unconditionally and
nothing is reported to the caller. -/
def FileStream.seek (fs : FileStream) (p : Nat) : FileStream :=
  ⟨fs.data, p⟩

/-- Claim C2: `readSome` copies `min(count, remaining)` bytes from the
current position, advances the position by the number of bytes copied, and
on exhaustion copies only what remains without failing; on a 10-byte
in-memory source, `seek 8` then `readSome 5` yields exactly 2 bytes and
position 10, and a further `readSome 1` yields 0 bytes. -/
theorem readSome_short_read (s : InMemoryStream) (count : Nat)
    (buf : List Nat) (hlen : buf.length = 10) :
    ((s.readSome count).1.length = min count (s.buf.length - s.pos) ∧
      (s.readSome count).1
        = (s.buf.drop s.pos).take (min count (s.buf.length - s.pos)) ∧
      (s.readSome count).2.pos = s.pos + (s.readSome count).1.length ∧
      (s.readSome count).2.buf = s.buf) ∧
    (((InMemoryStream.fromBuf buf).seek 8).readSome 5).1.length = 2 ∧
    (((InMemoryStream.fromBuf buf).seek 8).readSome 5).2.pos = 10 ∧
    (((((InMemoryStream.fromBuf buf).seek 8).readSome 5).2).readSome 1).1.length
      = 0 := by
  refine ⟨⟨?_, rfl, ?_, rfl⟩, ?_, ?_, ?_⟩
  · simp [InMemoryStream.readSome]
  · simp [InMemoryStream.readSome]
  · simp [InMemoryStream.readSome, InMemoryStream.seek, InMemoryStream.fromBuf,
      hlen]
  · simp [InMemoryStream.readSome, InMemoryStream.seek, InMemoryStream.fromBuf,
      hlen]
  · simp [InMemoryStream.readSome, InMemoryStream.seek, InMemoryStream.fromBuf,
      hlen]

/-- Witness for C2 at the concrete 10-byte buffer 0,...,9. -/
theorem readSome_short_read_witness :
    (List.range 10).length = 10 ∧
    (((InMemoryStream.fromBuf (List.range 10)).seek 8).readSome 5).1.length
      = 2 :=
  ⟨by decide,
    (readSome_short_read (InMemoryStream.fromBuf (List.range 10)) 5
      (List.range 10) (by decide)).2.1⟩

/-- Collect `n` successive `readBit` results into a list, together with the
final adapter state. -/
def collectBits : Nat → BitStreamAdapter → List Nat × BitStreamAdapter
  | 0, a => ([], a)
  | n + 1, a =>
    let r := a.readBit
    let rest := collectBits n r.2
    (r.1 :: rest.1, rest.2)

lemma readMSB_eq_foldl_collectBits (n : Nat) :
    ∀ (a : BitStreamAdapter) (v : Nat),
      readMSB BitStreamAdapter.readBit n v a
        = ((collectBits n a).1.foldl (fun w b => (w <<< 1) ||| b) v,
            (collectBits n a).2) := by
  induction n with
  | zero => intro a v; simp [readMSB, collectBits]
  | succ n ih => intro a v; simp [readMSB, collectBits, ih]

/-- Claim C3: for `len` in [1,32], `read len` is `readBit` iterated `len`
times with the results folded MSB-first as `value = (value << 1) | bit`;
on a source whose first byte is 0b10110010 (178), four successive `read 1`
calls from bit position 0 return 1, 0, 1, 1, and one `read 4` from bit
position 0 returns 11. -/
theorem read_is_msb_fold (a : BitStreamAdapter) (len : Nat)
    (h1 : 1 ≤ len) (h2 : len ≤ 32) :
    (a.read len
        = some ((collectBits len a).1.foldl (fun w b => (w <<< 1) ||| b) 0,
            (collectBits len a).2)) ∧
    (∃ a1 a2 a3 a4,
      (BitStreamAdapter.fromRas (InMemoryStream.fromBuf [178])).read 1
          = some (1, a1) ∧
      a1.read 1 = some (0, a2) ∧
      a2.read 1 = some (1, a3) ∧
      a3.read 1 = some (1, a4)) ∧
    ((BitStreamAdapter.fromRas (InMemoryStream.fromBuf [178])).read 4).map
        Prod.fst = some 11 := by
  refine ⟨?_, ⟨⟨⟨[178], 1⟩, 1⟩, ⟨⟨[178], 1⟩, 2⟩, ⟨⟨[178], 1⟩, 3⟩,
    ⟨⟨[178], 1⟩, 4⟩, by decide, by decide, by decide, by decide⟩, by decide⟩
  simp [BitStreamAdapter.read, h1, h2, readMSB_eq_foldl_collectBits]

/-- Witness for C3: `read 4` at the concrete one-byte source 0b10110010. -/
theorem read_is_msb_fold_witness :
    1 ≤ 4 ∧
    ((BitStreamAdapter.fromRas (InMemoryStream.fromBuf [178])).read 4).map
        Prod.fst = some 11 :=
  ⟨by decide,
    (read_is_msb_fold (BitStreamAdapter.fromRas (InMemoryStream.fromBuf [178]))
      4 (by decide) (by decide)).2.2⟩

/-- Claim C4: for every buffer, byte-aligned position `P` and count,
`seek P` then `readSome count` on the bit adapter yields the same bytes as
`readSome count` on the in-memory source positioned at `P`; the adapter
delegates the copy to the wrapped source at the byte position implied by
the bit position and advances the bit position by `count * 8`. -/
theorem bit_byte_consistency (buf : List Nat) (P count : Nat) :
    ((((BitStreamAdapter.fromRas (InMemoryStream.fromBuf buf)).seek P).readSome
        count).1
      = (((InMemoryStream.fromBuf buf).seek P).readSome count).1) ∧
    (∀ a : BitStreamAdapter,
      (a.readSome count).1 = ((a.ras.seek (a.bitPos / 8)).readSome count).1 ∧
      (a.readSome count).2.bitPos = a.bitPos + count * 8) := by
  have hP : P * 8 / 8 = P := by omega
  exact ⟨by simp [BitStreamAdapter.readSome, BitStreamAdapter.seek,
      BitStreamAdapter.fromRas, InMemoryStream.fromBuf, hP],
    fun a => ⟨rfl, rfl⟩⟩

/-- `readBit` iterated `n` times, keeping only the adapter state. -/
def iterReadBit : Nat → BitStreamAdapter → BitStreamAdapter
  | 0, a => a
  | n + 1, a => iterReadBit n (a.readBit).2

lemma iterReadBit_bitPos (n : Nat) : ∀ a : BitStreamAdapter,
    (iterReadBit n a).bitPos = a.bitPos + n := by
  induction n with
  | zero => intro a; simp [iterReadBit]
  | succ n ih =>
    intro a
    simp [iterReadBit, ih, BitStreamAdapter.readBit]
    omega

/-- Claim C5: `seek p` sets the bit position to `p * 8` and `tell` returns
the bit position divided by 8 rounded down, so `seek p` then `tell`
returns `p`, and after reading `k` bits with `0 < k < 8` from a
byte-aligned position `tell` still reports the byte position it reported
before the reads. -/
theorem seek_tell_consistency (a : BitStreamAdapter) (p m k : Nat)
    (hk0 : 0 < k) (hk8 : k < 8) (halign : a.bitPos = 8 * m) :
    (a.seek p).bitPos = p * 8 ∧
    a.tell = a.bitPos / 8 ∧
    (a.seek p).tell = p ∧
    (iterReadBit k a).tell = a.tell := by
  refine ⟨rfl, rfl, ?_, ?_⟩
  · simp only [BitStreamAdapter.seek, BitStreamAdapter.tell]
    omega
  · simp only [BitStreamAdapter.tell, iterReadBit_bitPos, halign]
    omega

/-- Witness for C5 at a one-byte source, `p = 5`, `k = 3`. -/
theorem seek_tell_consistency_witness :
    0 < 3 ∧
    ((BitStreamAdapter.fromRas (InMemoryStream.fromBuf [7])).seek 5).tell
      = 5 :=
  ⟨by decide,
    (seek_tell_consistency (BitStreamAdapter.fromRas (InMemoryStream.fromBuf
      [7])) 5 0 3 (by decide) (by decide) rfl).2.2.1⟩

/-- Claim C6: `toNearestByte` is the identity at a byte-aligned bit
position, and after reading `k` bits with `0 < k < 8` past a byte boundary
it advances the bit position to the next multiple of 8, exactly once:
applying it again changes nothing. -/
theorem toNearestByte_alignment (a : BitStreamAdapter) (m k : Nat)
    (hk0 : 0 < k) (hk8 : k < 8) (halign : a.bitPos = 8 * m) :
    (a.bitPos % 8 = 0 → a.toNearestByte = a) ∧
    ((iterReadBit k a).toNearestByte).bitPos = 8 * (m + 1) ∧
    ((iterReadBit k a).toNearestByte).toNearestByte
      = (iterReadBit k a).toNearestByte := by
  refine ⟨?_, ?_, ?_⟩
  · intro h
    cases a with
    | mk ras bp =>
      simp only [BitStreamAdapter.toNearestByte, BitStreamAdapter.mk.injEq,
        true_and]
      simp only [BitStreamAdapter.bitPos] at h ⊢
      omega
  · simp only [BitStreamAdapter.toNearestByte, iterReadBit_bitPos, halign]
    omega
  · simp only [BitStreamAdapter.toNearestByte, BitStreamAdapter.mk.injEq,
      true_and]
    omega

/-- Witness for C6 after reading 3 bits from bit position 0. -/
theorem toNearestByte_alignment_witness :
    0 < 3 ∧
    ((iterReadBit 3 (BitStreamAdapter.fromRas (InMemoryStream.fromBuf
        [7]))).toNearestByte).bitPos = 8 * (0 + 1) :=
  ⟨by decide,
    (toNearestByte_alignment (BitStreamAdapter.fromRas (InMemoryStream.fromBuf
      [7])) 0 3 (by decide) (by decide) rfl).2.1⟩

/-- Claim C7: a `read len` with `len` outside [1,32] fails fast (returns no
value), for instance `read 0` and `read 33`; under the precondition
`1 ≤ len ≤ 32` the failure branch is unreachable. -/
theorem read_width_contract (a : BitStreamAdapter) (len : Nat) :
    (¬ (1 ≤ len ∧ len ≤ 32) → a.read len = none) ∧
    (1 ≤ len → len ≤ 32 → ∃ r, a.read len = some r) ∧
    a.read 0 = none ∧
    a.read 33 = none := by
  refine ⟨?_, ?_, rfl, rfl⟩
  · intro h
    simp [BitStreamAdapter.read, h]
  · intro h1 h2
    exact ⟨readMSB BitStreamAdapter.readBit len 0 a,
      by simp [BitStreamAdapter.read, h1, h2]⟩

/-- Witness for C7: `read 33` on a concrete adapter is rejected. -/
theorem read_width_contract_witness :
    ¬ (1 ≤ 33 ∧ 33 ≤ 32) ∧
    (BitStreamAdapter.fromRas (InMemoryStream.fromBuf [7])).read 33 = none :=
  ⟨by decide,
    (read_width_contract (BitStreamAdapter.fromRas (InMemoryStream.fromBuf
      [7])) 33).1 (by decide)⟩

/-- Claim C8: when the backing store cannot be opened the `FileStream`
constructor fails immediately with the distinct error
`"can't read file"`, producing no stream object, and it never yields a
silently empty stream; when the store opens, a stream positioned at 0 over
its bytes is produced. -/
theorem fileStream_construct_fails (d : List Nat) :
    FileStream.construct none = Except.error "can't read file" ∧
    (∀ fs : FileStream, FileStream.construct none ≠ Except.ok fs) ∧
    FileStream.construct (some d) = Except.ok ⟨d, 0⟩ := by
  refine ⟨rfl, ?_, rfl⟩
  intro fs h
  simp [FileStream.construct] at h

/-- Claim C10: `FileStream::readSome` and `FileStream::seek` never fail and
never report how much was read or whether the seek succeeded: `readSome`
discards the byte count of the underlying read, returns normally on a
short read, and leaves the bytes of `dest` beyond those actually read
unmodified; `seek` sets the position unconditionally. -/
theorem fileStream_silent_short_read (fs : FileStream) (dest : List Nat)
    (count : Nat) (hcount : count ≤ dest.length) :
    ((fs.readSome dest count).1.length = dest.length ∧
      (fs.readSome dest count).1.drop (min count (fs.data.length - fs.pos))
        = dest.drop (min count (fs.data.length - fs.pos)) ∧
      (fs.readSome dest count).2.pos
        = fs.pos + min count (fs.data.length - fs.pos)) ∧
    (∀ p, (fs.seek p).pos = p) := by
  have hgot : ((fs.data.drop fs.pos).take
      (min count (fs.data.length - fs.pos))).length
      = min count (fs.data.length - fs.pos) := by
    simp
  refine ⟨⟨?_, ?_, ?_⟩, fun p => rfl⟩
  · simp only [FileStream.readSome, List.length_append, List.length_drop, hgot]
    omega
  · simp only [FileStream.readSome]
    rw [hgot, List.drop_left' hgot]
  · simp only [FileStream.readSome, hgot]

/-- Witness for C10: a 3-byte file at position 2, a 3-byte destination. -/
theorem fileStream_silent_short_read_witness :
    3 ≤ [9, 9, 9].length ∧
    ((FileStream.readSome ⟨[1, 2, 3], 2⟩ [9, 9, 9] 3).1.length
      = [9, 9, 9].length) :=
  ⟨by decide,
    (fileStream_silent_short_read ⟨[1, 2, 3], 2⟩ [9, 9, 9] 3
      (by decide)).1.1⟩

lemma xorBytes_length (key : Nat → Nat) (l : List Nat) :
    ∀ p, (xorBytes key p l).length = l.length := by
  induction l with
  | nil => intro p; rfl
  | cons b bs ih => intro p; simp [xorBytes, ih]

lemma xorBytes_involutive (key : Nat → Nat) (l : List Nat) :
    ∀ p, xorBytes key p (xorBytes key p l) = l := by
  induction l with
  | nil => intro p; rfl
  | cons b bs ih => intro p; simp [xorBytes, ih, Nat.xor_cancel_right]

lemma xorBytes_drop (key : Nat → Nat) (l : List Nat) :
    ∀ p d, (xorBytes key p l).drop d = xorBytes key (p + d) (l.drop d) := by
  induction l with
  | nil => intro p d; simp [xorBytes]
  | cons b bs ih =>
    intro p d
    cases d with
    | zero => simp
    | succ d =>
      simp only [xorBytes, List.drop_succ_cons, ih (p + 1) d]
      congr 1
      omega

lemma xorBytes_take (key : Nat → Nat) (l : List Nat) :
    ∀ p n, (xorBytes key p l).take n = xorBytes key p (l.take n) := by
  induction l with
  | nil => intro p n; simp [xorBytes]
  | cons b bs ih =>
    intro p n
    cases n with
    | zero => simp [xorBytes]
    | succ n => simp [xorBytes, ih (p + 1) n]

/-- Claim C9: `XoringStreamAdapter` overrides only `readSome`, `seek` and
`readBit`; `tell` and `toNearestByte` behave exactly as on the inherited
`BitStreamAdapter` sub-object at the same bit position, and `read len` is
the inherited MSB-first assembly driven by the overridden `readBit`, whose
in-range result is the plain `readBit` applied to the decrypted buffer. -/
theorem xoring_frame (key : Nat → Nat) (x : XoringStreamAdapter) (len : Nat)
    (h1 : 1 ≤ len) (h2 : len ≤ 32)
    (hin : x.bitPos / 8 < x.ras.buf.length) :
    x.tell = x.toPlain.tell ∧
    (x.toNearestByte).toPlain = x.toPlain.toNearestByte ∧
    x.read key len = some (readMSB (XoringStreamAdapter.readBit key) len 0 x) ∧
    (XoringStreamAdapter.readBit key x).1
      = (BitStreamAdapter.readBit
          ⟨⟨xorBytes key 0 x.ras.buf, x.ras.pos⟩, x.bitPos⟩).1 ∧
    (XoringStreamAdapter.readBit key x).2.bitPos = x.bitPos + 1 := by
  refine ⟨rfl, rfl, by simp [XoringStreamAdapter.read, h1, h2], ?_, rfl⟩
  have hdrop : x.ras.buf.drop (x.bitPos / 8)
      = x.ras.buf[x.bitPos / 8] :: x.ras.buf.drop (x.bitPos / 8 + 1) :=
    List.drop_eq_getElem_cons hin
  have hmin : min 1 (x.ras.buf.length - x.bitPos / 8) = 1 := by omega
  simp only [XoringStreamAdapter.readBit, BitStreamAdapter.readBit,
    InMemoryStream.seek, InMemoryStream.readSome,
    xorBytes_length, xorBytes_drop, Nat.zero_add, hdrop, hmin, xorBytes,
    List.take_succ_cons, List.take_zero, List.headD_cons]

/-- Witness for C9 at a one-byte source with a constant key. -/
theorem xoring_frame_witness :
    (0 : Nat) / 8 < ([178] : List Nat).length ∧
    (XoringStreamAdapter.fromRas (InMemoryStream.fromBuf [178])).tell
      = (XoringStreamAdapter.fromRas
          (InMemoryStream.fromBuf [178])).toPlain.tell :=
  ⟨by decide,
    (xoring_frame (fun _ => 85)
      (XoringStreamAdapter.fromRas (InMemoryStream.fromBuf [178])) 1
      (by decide) (by decide) (by decide)).1⟩

/-- `n` sequential single-byte reads through the obfuscating stream,
starting from the given state: concatenated decrypted bytes and final
state. -/
def seqReads (key : Nat → Nat) : Nat → XoringStreamAdapter →
    List Nat × XoringStreamAdapter
  | 0, x => ([], x)
  | n + 1, x =>
    let r := XoringStreamAdapter.readSome key x 1
    let rest := seqReads key n r.2
    (r.1 ++ rest.1, rest.2)

lemma xor_readSome_bytes (key : Nat → Nat) (x : XoringStreamAdapter)
    (count : Nat) :
    (XoringStreamAdapter.readSome key x count).1
      = xorBytes key (x.bitPos / 8)
          ((x.ras.buf.drop (x.bitPos / 8)).take
            (min count (x.ras.buf.length - x.bitPos / 8))) := rfl

lemma seqReads_state (key : Nat → Nat) (n : Nat) :
    ∀ x : XoringStreamAdapter,
      (seqReads key n x).2.bitPos = x.bitPos + 8 * n ∧
      (seqReads key n x).2.ras.buf = x.ras.buf := by
  induction n with
  | zero => intro x; exact ⟨by simp [seqReads], rfl⟩
  | succ n ih =>
    intro x
    have h := ih (XoringStreamAdapter.readSome key x 1).2
    have hb : (XoringStreamAdapter.readSome key x 1).2.bitPos
        = x.bitPos + 8 := rfl
    have hbuf : (XoringStreamAdapter.readSome key x 1).2.ras.buf
        = x.ras.buf := rfl
    refine ⟨?_, ?_⟩
    · simp only [seqReads]
      rw [h.1, hb]
      omega
    · simp only [seqReads]
      rw [h.2, hbuf]

lemma seqReads_bytes (key : Nat → Nat) (n : Nat) :
    ∀ (k : Nat) (x : XoringStreamAdapter), x.bitPos = 8 * k →
      (seqReads key n x).1
        = xorBytes key k
            ((x.ras.buf.drop k).take (min n (x.ras.buf.length - k))) := by
  induction n with
  | zero => intro k x h; simp [seqReads, xorBytes]
  | succ n ih =>
    intro k x h
    have hk : x.bitPos / 8 = k := by omega
    have hstate1 :
        (XoringStreamAdapter.readSome key x 1).2.bitPos = 8 * (k + 1) := by
      simp only [XoringStreamAdapter.readSome]
      omega
    have hbuf1 :
        (XoringStreamAdapter.readSome key x 1).2.ras.buf = x.ras.buf := rfl
    have hrest := ih (k + 1) (XoringStreamAdapter.readSome key x 1).2 hstate1
    rw [hbuf1] at hrest
    simp only [seqReads, hrest, xor_readSome_bytes, hk]
    by_cases hrange : k < x.ras.buf.length
    · have hdrop : x.ras.buf.drop k
          = x.ras.buf[k] :: x.ras.buf.drop (k + 1) :=
        List.drop_eq_getElem_cons hrange
      have hmin1 : min 1 (x.ras.buf.length - k) = 1 := by omega
      have hminsucc : min (n + 1) (x.ras.buf.length - k)
          = min n (x.ras.buf.length - (k + 1)) + 1 := by omega
      rw [hdrop, hmin1, hminsucc]
      simp [xorBytes]
    · have h0 : x.ras.buf.drop k = [] := by
        apply List.drop_eq_nil_of_le
        omega
      have h1 : x.ras.buf.drop (k + 1) = [] := by
        apply List.drop_eq_nil_of_le
        omega
      simp [h0, h1, xorBytes]

/-- Claim C1: for every backing buffer, byte position `P`, and key
function, the decrypted byte at `P` is the same whether `P` is reached by
sequential single-byte reads from position 0 or by `seek P` followed by a
read; and a plaintext encrypted byte-wise with `key P` and read back
through the obfuscating stream reproduces the plaintext, both via purely
sequential byte-wise reads and via a read preceded by an arbitrary
`seek P`. -/
theorem xoring_seek_independence (key : Nat → Nat) (buf pt : List Nat)
    (P : Nat) :
    (XoringStreamAdapter.readSome key
        (seqReads key P
          (XoringStreamAdapter.fromRas (InMemoryStream.fromBuf buf))).2 1).1
      = (XoringStreamAdapter.readSome key
          ((XoringStreamAdapter.fromRas (InMemoryStream.fromBuf buf)).seek P)
          1).1 ∧
    (XoringStreamAdapter.readSome key
        ((XoringStreamAdapter.fromRas
          (InMemoryStream.fromBuf (xorBytes key 0 pt))).seek P)
        (pt.length - P)).1
      = pt.drop P ∧
    (seqReads key pt.length
        (XoringStreamAdapter.fromRas
          (InMemoryStream.fromBuf (xorBytes key 0 pt)))).1 = pt := by
  refine ⟨?_, ?_, ?_⟩
  · have hs := seqReads_state key P
      (XoringStreamAdapter.fromRas (InMemoryStream.fromBuf buf))
    rw [xor_readSome_bytes, xor_readSome_bytes, hs.1, hs.2]
    have e1 : ((XoringStreamAdapter.fromRas
        (InMemoryStream.fromBuf buf)).bitPos + 8 * P) / 8 = P := by
      simp only [XoringStreamAdapter.fromRas]
      omega
    have e2 : (((XoringStreamAdapter.fromRas
        (InMemoryStream.fromBuf buf)).seek P).bitPos) / 8 = P := by
      simp only [XoringStreamAdapter.fromRas, XoringStreamAdapter.seek]
      omega
    rw [e1, e2]
    rfl
  · rw [xor_readSome_bytes]
    have e2 : (((XoringStreamAdapter.fromRas
        (InMemoryStream.fromBuf (xorBytes key 0 pt))).seek P).bitPos) / 8
        = P := by
      simp only [XoringStreamAdapter.fromRas, XoringStreamAdapter.seek]
      omega
    rw [e2]
    show xorBytes key P
        (((xorBytes key 0 pt).drop P).take
          (min (pt.length - P) ((xorBytes key 0 pt).length - P)))
      = pt.drop P
    rw [xorBytes_length, Nat.min_self, xorBytes_drop, Nat.zero_add]
    have hfull : (xorBytes key P (pt.drop P)).take (pt.length - P)
        = xorBytes key P (pt.drop P) := by
      apply List.take_of_length_le
      rw [xorBytes_length, List.length_drop]
    rw [hfull, xorBytes_involutive]
  · rw [seqReads_bytes key pt.length 0
      (XoringStreamAdapter.fromRas
        (InMemoryStream.fromBuf (xorBytes key 0 pt))) rfl]
    show xorBytes key 0
        (((xorBytes key 0 pt).drop 0).take
          (min pt.length ((xorBytes key 0 pt).length - 0))) = pt
    rw [List.drop_zero, xorBytes_length, Nat.sub_zero, Nat.min_self]
    have hfull : (xorBytes key 0 pt).take pt.length = xorBytes key 0 pt := by
      apply List.take_of_length_le
      rw [xorBytes_length]
    rw [hfull, xorBytes_involutive]

end dictlsd
